import Mathlib

/-!
Shallow embedding of the peer-review core of the repository: the review
ledger (PeerReviewService and PeerReviewRepository), the reviewer
assignment engine (ReviewerAssignmentService), the consensus trigger
(AnswerService) and the blind Borda ranking aggregator.

Conventions of the embedding:
- JavaScript numbers that hold integral values (timestamps, loads,
  counts, ranks) are modelled as Int or Nat; fractional values (scores,
  ratings, similarity, averages) as Rat, which is exact where JS floats
  round but agrees on every quantity appearing in the claims.
- Date.now() is modelled by an explicit now : Int argument; the random
  id suffixes of created records are modelled by deterministic strings,
  which no claim depends on.
- In-memory arrays and Mongo collections are modelled as lists of
  records threaded through the functions; mutation becomes returning the
  updated list.
- Thrown BadRequestError values become Except.error; the unguarded
  non-null assertion in submitBlindRanking becomes Option, with none
  modelling the runtime TypeError.
- Array.prototype.sort with a comparator, and the Mongo createdAt sort,
  are modelled by a stable structural sort (List.insertionSort) on the
  corresponding relation; no claim depends on the order of ties.
-/

/-- Review lifecycle states, from the ReviewStatus union in models.ts. -/
inductive ReviewStatus where
  | assigned
  | in_progress
  | submitted
  | overdue
  | cancelled
deriving DecidableEq

/-- Assignment lifecycle states, from the AssignmentStatus union in models.ts. -/
inductive AssignmentStatus where
  | pending
  | accepted
  | declined
  | completed
deriving DecidableEq

/-- Peer review record, from the IPeerReview interface in models.ts. -/
structure IPeerReview where
  _id : String
  answerId : String
  reviewerId : String
  score : Option Rat
  similarity : Option Rat
  status : ReviewStatus
  comments : Option String
  assignedAt : Int
  submittedAt : Option Int
  createdAt : Int
  updatedAt : Int
deriving DecidableEq

/-- Reviewer assignment record, from the IReviewerAssignment interface in
models.ts. The priority field is kept as a String because the source type
is a union of string literals and getDueDateForPriority has a default
switch branch for unrecognized values. -/
structure IReviewerAssignment where
  _id : String
  answerId : String
  reviewerId : String
  assignedAt : Int
  dueDate : Option Int
  priority : String
  status : AssignmentStatus
  createdAt : Int
  updatedAt : Int
deriving DecidableEq

/-- Reviewer capacity profile, from the IReviewerProfile interface in
models.ts. currentReviewLoad is an Int, as in JS, so that the claim that
loads are never driven below zero is not true by type alone. -/
structure IReviewerProfile where
  _id : String
  userId : String
  expertise : List String
  reviewCount : Int
  averageRating : Rat
  isActive : Bool
  maxConcurrentReviews : Int
  currentReviewLoad : Int
  updatedAt : Int
deriving DecidableEq

/-- Answer record; only the fields the peer-review core reads. -/
structure IAnswer where
  _id : String
  questionId : String
  authorId : String
  answer : String
deriving DecidableEq

/-- Replaces the first element satisfying p by its image under f, leaving
the rest of the list unchanged; models an in-place mutation of the record
returned by Array.prototype.find, and a Mongo updateOne on a unique key. -/
def updateFirst (p : α → Bool) (f : α → α) : List α → List α
  | [] => []
  | x :: xs => if p x then f x :: xs else x :: updateFirst p f xs

/-- Modelled from the spec: the isValidObjectId utility imported by the
repositories is not among the provided sources. The spec error taxonomy
rejects malformed ids before any mutation, and Mongo object ids are 24
hexadecimal characters. -/
def isValidObjectId (s : String) : Bool :=
  s.length == 24 &&
    s.data.all (fun c => c.isDigit || ('a' ≤ c && c ≤ 'f') || ('A' ≤ c && c ≤ 'F'))

/-- In-memory submitReview of PeerReviewService (peer-review-service.ts):
finds the review by id, returns false when absent, otherwise overwrites
score, comments and similarity, sets status submitted and submittedAt,
and returns true. Note that it performs no score validation. -/
def PeerReviewService.submitReview (peerReviews : List IPeerReview) (reviewId : String)
    (score : Rat) (comments : Option String) (similarity : Option Rat) (now : Int) :
    Bool × List IPeerReview :=
  match peerReviews.find? (fun r => decide (r._id = reviewId)) with
  | none => (false, peerReviews)
  | some _ =>
    (true,
      updateFirst (fun r => decide (r._id = reviewId))
        (fun r =>
          { r with
            score := some score
            comments := comments
            similarity := similarity
            status := ReviewStatus.submitted
            submittedAt := some now
            updatedAt := now })
        peerReviews)

/-- Mongo-backed submitReview of PeerReviewRepository: rejects malformed
ids and scores outside 1..5 with a BadRequestError, otherwise sets score,
status submitted, submittedAt and updatedAt on the matching document, and
copies comments and similarity into the update only when provided. The
returned Nat is the modifiedCount of the updateOne. The update document
sets score, status, submittedAt and updatedAt, and adds comments and
similarity only when they are provided. -/
def submitReviewUpdate (score : Rat) (comments : Option String) (similarity : Option Rat)
    (now : Int) (r : IPeerReview) : IPeerReview :=
  let r1 := { r with
    score := some score
    status := ReviewStatus.submitted
    submittedAt := some now
    updatedAt := now }
  let r2 := match comments with
    | some c => { r1 with comments := some c }
    | none => r1
  match similarity with
    | some v => { r2 with similarity := some v }
    | none => r2

/-- Mongo-backed submitReview of PeerReviewRepository: rejects malformed
ids and scores outside 1..5 with a BadRequestError, otherwise applies
submitReviewUpdate to the matching document. -/
def PeerReviewRepository.submitReview (peerReviews : List IPeerReview) (reviewId : String)
    (score : Rat) (comments : Option String) (similarity : Option Rat) (now : Int) :
    Except String (Nat × List IPeerReview) :=
  if ¬ isValidObjectId reviewId then Except.error "Invalid reviewId"
  else if score < 1 ∨ 5 < score then Except.error "Score must be between 1 and 5"
  else
    let modified := if peerReviews.any (fun r => decide (r._id = reviewId)) then 1 else 0
    Except.ok (modified,
      updateFirst (fun r => decide (r._id = reviewId))
        (submitReviewUpdate score comments similarity now) peerReviews)

/-- Mongo-backed getReviewById of PeerReviewRepository. -/
def PeerReviewRepository.getReviewById (peerReviews : List IPeerReview) (reviewId : String) :
    Except String (Option IPeerReview) :=
  if ¬ isValidObjectId reviewId then Except.error "Invalid reviewId"
  else Except.ok (peerReviews.find? (fun r => decide (r._id = reviewId)))

/-- Mongo-backed getReviewsForAnswer of PeerReviewRepository: documents
matching the answerId, sorted by createdAt ascending. -/
def PeerReviewRepository.getReviewsForAnswer (peerReviews : List IPeerReview)
    (answerId : String) : Except String (List IPeerReview) :=
  if ¬ isValidObjectId answerId then Except.error "Invalid answerId"
  else
    Except.ok
      ((peerReviews.filter (fun r => decide (r.answerId = answerId))).insertionSort
        (fun a b => a.createdAt ≤ b.createdAt))

/-- Filter selecting the completed reviews: status submitted with a
defined score, as in getReviewStatsForAnswer. -/
def completedSubmittedReviews (reviews : List IPeerReview) : List IPeerReview :=
  reviews.filter (fun r => decide (r.status = ReviewStatus.submitted) && r.score.isSome)

/-- Aggregate review statistics returned by getReviewStatsForAnswer. -/
structure ReviewStats where
  totalReviews : Nat
  completedReviews : Nat
  averageScore : Rat
  thresholdReached : Bool
deriving DecidableEq

/-- Mongo-backed getReviewStatsForAnswer of PeerReviewRepository:
completed reviews are those with status submitted and a defined score,
averageScore is their total divided by their count (0 when none), and
thresholdReached is averageScore at least 3.5 with at least 3 completed
reviews. -/
def PeerReviewRepository.getReviewStatsForAnswer (peerReviews : List IPeerReview)
    (answerId : String) : Except String ReviewStats :=
  if ¬ isValidObjectId answerId then Except.error "Invalid answerId"
  else
    match PeerReviewRepository.getReviewsForAnswer peerReviews answerId with
    | Except.error e => Except.error e
    | Except.ok reviews =>
      let completed := completedSubmittedReviews reviews
      let completedCount := completed.length
      let averageScore : Rat :=
        if 0 < completedCount then
          (completed.map (fun r => r.score.getD 0)).sum / (completedCount : Rat)
        else 0
      let thresholdReached := decide ((7 : Rat)/2 ≤ averageScore) && decide (3 ≤ completedCount)
      Except.ok ⟨reviews.length, completedCount, averageScore, thresholdReached⟩

/-- State of ReviewerAssignmentService: the reviewerProfiles and
reviewerAssignments module-level arrays. -/
structure AssignState where
  reviewerProfiles : List IReviewerProfile
  reviewerAssignments : List IReviewerAssignment
deriving DecidableEq

/-- Scoring function of ReviewerAssignmentService.calculateReviewerScore:
availability, rating and experience terms plus a bonus for high or urgent
priority. -/
def ReviewerAssignmentService.calculateReviewerScore (reviewer : IReviewerProfile)
    (priority : String) : Rat :=
  let loadRatio : Rat := (reviewer.currentReviewLoad : Rat) / (reviewer.maxConcurrentReviews : Rat)
  let availability := (1 - loadRatio) * 30
  let rating := reviewer.averageRating * 20
  let experience := min ((reviewer.reviewCount : Rat) / 10) 20
  let bonus : Rat := if priority = "high" ∨ priority = "urgent" then 10 else 0
  availability + rating + experience + bonus

/-- ReviewerAssignmentService.getDueDateForPriority: despite its use as a
duration at the call site, the source returns now plus the priority
window (24h, 3d, 7d, 14d, default 7d). -/
def ReviewerAssignmentService.getDueDateForPriority (priority : String) (now : Int) : Int :=
  if priority = "urgent" then now + 24 * 60 * 60 * 1000
  else if priority = "high" then now + 3 * 24 * 60 * 60 * 1000
  else if priority = "medium" then now + 7 * 24 * 60 * 60 * 1000
  else if priority = "low" then now + 14 * 24 * 60 * 60 * 1000
  else now + 7 * 24 * 60 * 60 * 1000

/-- Active reviewers with spare capacity, the candidate pool computed
twice inside assignReviewersToAnswer. -/
def availableProfiles (profiles : List IReviewerProfile) : List IReviewerProfile :=
  profiles.filter (fun r => r.isActive && decide (r.currentReviewLoad < r.maxConcurrentReviews))

/-- Candidate pool of assignReviewersToAnswer: active reviewers with
spare capacity, optionally filtered by expertise, falling back to the
unfiltered available pool when the expertise filter empties it and an
expertise list was given. -/
def candidatePool (profiles : List IReviewerProfile)
    (requiredExpertise : Option (List String)) : List IReviewerProfile :=
  let avail0 := availableProfiles profiles
  let avail1 := match requiredExpertise with
    | some es =>
      if 0 < es.length then
        avail0.filter (fun r => es.any (fun e => r.expertise.contains e))
      else avail0
    | none => avail0
  let fallback : Bool := match requiredExpertise with
    | some es => decide (0 < es.length)
    | none => false
  if avail1.length = 0 ∧ fallback = true then avail0 else avail1

/-- Candidates sorted by calculateReviewerScore descending. -/
def sortedCandidates (profiles : List IReviewerProfile)
    (requiredExpertise : Option (List String)) (priority : String) : List IReviewerProfile :=
  (candidatePool profiles requiredExpertise).insertionSort (fun a b =>
    ReviewerAssignmentService.calculateReviewerScore b priority ≤
      ReviewerAssignmentService.calculateReviewerScore a priority)

/-- The reviewers assignReviewersToAnswer selects: up to 3 from the top
of the sorted candidates. -/
def selectedReviewers (profiles : List IReviewerProfile)
    (requiredExpertise : Option (List String)) (priority : String) : List IReviewerProfile :=
  (sortedCandidates profiles requiredExpertise priority).take
    (min 3 (sortedCandidates profiles requiredExpertise priority).length)

/-- ReviewerAssignmentService.assignReviewersToAnswer: filters the active
reviewers with spare capacity, optionally filters by expertise with a
fallback to the unfiltered pool, sorts by score descending, takes up to
3 reviewers, creates one pending assignment per selected reviewer with
dueDate set to now plus getDueDateForPriority (which itself already adds
now), and increments the load of each selected reviewer. The source
takes no exclusion argument. -/
def ReviewerAssignmentService.assignReviewersToAnswer (s : AssignState) (answerId : String)
    (priority : String) (requiredExpertise : Option (List String)) (now : Int) :
    List IReviewerAssignment × AssignState :=
  let selected := selectedReviewers s.reviewerProfiles requiredExpertise priority
  let newAssignments := selected.map (fun r =>
    ({ _id := "assignment_" ++ toString now ++ "_" ++ r._id
       answerId := answerId
       reviewerId := r._id
       assignedAt := now
       dueDate := some (now + ReviewerAssignmentService.getDueDateForPriority priority now)
       priority := priority
       status := AssignmentStatus.pending
       createdAt := now
       updatedAt := now } : IReviewerAssignment))
  let profiles2 := s.reviewerProfiles.map (fun p =>
    if selected.any (fun r => decide (r._id = p._id)) then
      { p with currentReviewLoad := p.currentReviewLoad + 1, updatedAt := now }
    else p)
  (newAssignments,
    { reviewerProfiles := profiles2
      reviewerAssignments := s.reviewerAssignments ++ newAssignments })

/-- ReviewerAssignmentService.updateAssignmentStatus: false when the
assignment is absent; otherwise writes the new status, and on a
transition to completed decrements the load of the assigned reviewer
only when it is positive. -/
def ReviewerAssignmentService.updateAssignmentStatus (s : AssignState) (assignmentId : String)
    (status : AssignmentStatus) (now : Int) : Bool × AssignState :=
  match s.reviewerAssignments.find? (fun a => decide (a._id = assignmentId)) with
  | none => (false, s)
  | some a =>
    let assignments2 := updateFirst (fun x => decide (x._id = assignmentId))
      (fun x => { x with status := status, updatedAt := now }) s.reviewerAssignments
    let profiles2 :=
      if status = AssignmentStatus.completed then
        updateFirst (fun r => decide (r._id = a.reviewerId))
          (fun r =>
            if 0 < r.currentReviewLoad then
              { r with currentReviewLoad := r.currentReviewLoad - 1, updatedAt := now }
            else r)
          s.reviewerProfiles
      else s.reviewerProfiles
    (true, { reviewerProfiles := profiles2, reviewerAssignments := assignments2 })

/-- Mongo-backed getAssignmentsForAnswer of ReviewerAssignmentRepository:
documents matching the answerId, sorted by createdAt ascending. -/
def ReviewerAssignmentRepository.getAssignmentsForAnswer
    (assignments : List IReviewerAssignment) (answerId : String) :
    Except String (List IReviewerAssignment) :=
  if ¬ isValidObjectId answerId then Except.error "Invalid answerId"
  else
    Except.ok
      ((assignments.filter (fun a => decide (a.answerId = answerId))).insertionSort
        (fun a b => a.createdAt ≤ b.createdAt))

/-- Trigger decision of AnswerService.checkAndTriggerNextReviewRound:
false when the review is absent, otherwise true exactly when the stats of
the reviewed answer have at least 2 completed reviews and the threshold
reached. The next-round side effect it guards is modelled separately by
AnswerService.assignNextRoundReviewers. -/
def AnswerService.checkAndTriggerNextReviewRound (peerReviews : List IPeerReview)
    (reviewId : String) : Except String Bool :=
  match PeerReviewRepository.getReviewById peerReviews reviewId with
  | Except.error e => Except.error e
  | Except.ok none => Except.ok false
  | Except.ok (some review) =>
    match PeerReviewRepository.getReviewStatsForAnswer peerReviews review.answerId with
    | Except.error e => Except.error e
    | Except.ok stats =>
      Except.ok (decide (2 ≤ stats.completedReviews) && stats.thresholdReached)

/-- AnswerService.assignNextRoundReviewers: reads the existing
assignments of the answer and computes existingReviewerIds, then calls
ReviewerAssignmentService.assignReviewersToAnswer. The source passes
existingReviewerIds as a fourth argument, but the service signature has
only three parameters, so the exclusion list is ignored at the call; the
surrounding try/catch turns repository errors into a no-op. -/
def AnswerService.assignNextRoundReviewers (repoAssignments : List IReviewerAssignment)
    (svc : AssignState) (answerId : String) (now : Int) :
    List IReviewerAssignment × AssignState :=
  match ReviewerAssignmentRepository.getAssignmentsForAnswer repoAssignments answerId with
  | Except.error _ => ([], svc)
  | Except.ok existing =>
    let existingReviewerIds := existing.map (fun a => a.reviewerId)
    let _ := existingReviewerIds
    ReviewerAssignmentService.assignReviewersToAnswer svc answerId "medium" none now

/-- Anonymous answer mapping; the IAnswerMapping interface is imported by
peer-review-service.ts but its declaration is not among the provided
sources. Modelled from the spec: list items are anonymousId,
realAnswerId and authorId. -/
structure IAnswerMapping where
  anonymousId : String
  realAnswerId : String
  authorId : String
deriving DecidableEq

/-- Blind review assignment; the IBlindReviewAssignment interface is not
among the provided sources. Modelled from the spec and the fields the
service reads and writes. -/
structure IBlindReviewAssignment where
  _id : String
  reviewerId : String
  questionId : String
  answerMappings : List IAnswerMapping
  status : String
  createdAt : Int
  updatedAt : Int
deriving DecidableEq

/-- One ranked entry of an AnswerRanking record. -/
structure IAnswerRank where
  answerId : String
  anonymousId : String
  rank : Int
  bordaPoints : Int
deriving DecidableEq

/-- Anonymous ranking record; the IAnswerRanking interface is not among
the provided sources. Modelled from the spec and the fields the service
reads and writes. -/
structure IAnswerRanking where
  _id : String
  reviewerId : String
  questionId : String
  rankings : List IAnswerRank
  status : String
  createdAt : Int
  updatedAt : Int
deriving DecidableEq

/-- Anonymous label of the answer at the given position: the string
Answer followed by the character of code 65 plus the index, as built by
String.fromCharCode in createBlindAssignment. -/
def anonymousLabel (index : Nat) : String :=
  "Answer " ++ String.singleton (Char.ofNat (65 + index))

/-- PeerReviewService.createBlindAssignment: drops the answers authored
by the reviewer, labels the remaining answers in input order starting at
Answer A, and appends the new assignment to the store. -/
def PeerReviewService.createBlindAssignment (blind : List IBlindReviewAssignment)
    (reviewerId questionId : String) (answers : List IAnswer) (now : Int) :
    IBlindReviewAssignment × List IBlindReviewAssignment :=
  let otherAnswers := answers.filter (fun a => !(decide (a.authorId = reviewerId)))
  let answerMappings := otherAnswers.enum.map (fun p =>
    ({ anonymousId := anonymousLabel p.1
       realAnswerId := p.2._id
       authorId := p.2.authorId } : IAnswerMapping))
  let assignment : IBlindReviewAssignment :=
    { _id := "blind_" ++ toString now
      reviewerId := reviewerId
      questionId := questionId
      answerMappings := answerMappings
      status := "assigned"
      createdAt := now
      updatedAt := now }
  (assignment, blind ++ [assignment])

/-- PeerReviewService.getBlindAssignment: first stored assignment of the
reviewer for the question. -/
def PeerReviewService.getBlindAssignment (blind : List IBlindReviewAssignment)
    (reviewerId questionId : String) : Option IBlindReviewAssignment :=
  blind.find? (fun a => decide (a.reviewerId = reviewerId) && decide (a.questionId = questionId))

/-- One submitted ranking entry, the anonymousId and rank pair of the
rankings argument of submitBlindRanking. -/
structure RankingInput where
  anonymousId : String
  rank : Int
deriving DecidableEq

/-- State of the blind review part of PeerReviewService: the
blindAssignments and answerRankings module-level arrays. -/
structure BlindState where
  blindAssignments : List IBlindReviewAssignment
  answerRankings : List IAnswerRanking
deriving DecidableEq

/-- PeerReviewService.submitBlindRanking: false when no assignment
matches the reviewer and question; otherwise converts each submitted
entry using the mapping found by its anonymousId, giving bordaPoints
equal to the number of ranked answers minus the rank, stores the
completed ranking record and marks the assignment completed. The lookup
uses an unguarded non-null assertion; an entry whose anonymousId has no
mapping makes the function fault, modelled by none. -/
def PeerReviewService.submitBlindRanking (s : BlindState) (reviewerId questionId : String)
    (rankings : List RankingInput) (now : Int) : Option (Bool × BlindState) :=
  match PeerReviewService.getBlindAssignment s.blindAssignments reviewerId questionId with
  | none => some (false, s)
  | some assignment =>
    let numAnswers : Int := rankings.length
    let answerRanks? : Option (List IAnswerRank) := rankings.mapM (fun ranking =>
      (assignment.answerMappings.find? (fun m => decide (m.anonymousId = ranking.anonymousId))).map
        (fun mapping =>
          { answerId := mapping.realAnswerId
            anonymousId := ranking.anonymousId
            rank := ranking.rank
            bordaPoints := numAnswers - ranking.rank }))
    match answerRanks? with
    | none => none
    | some answerRanks =>
      let record : IAnswerRanking :=
        { _id := "ranking_" ++ toString now
          reviewerId := reviewerId
          questionId := questionId
          rankings := answerRanks
          status := "completed"
          createdAt := now
          updatedAt := now }
      let blind2 := updateFirst
        (fun a => decide (a.reviewerId = reviewerId) && decide (a.questionId = questionId))
        (fun a => { a with status := "completed", updatedAt := now })
        s.blindAssignments
      some (true, { blindAssignments := blind2, answerRankings := s.answerRankings ++ [record] })

/-- One aggregated row of the calculateBordaWinner result. -/
structure BordaEntry where
  answerId : String
  totalBordaPoints : Int
  averageRank : Rat
deriving DecidableEq

/-- Result of calculateBordaWinner. -/
structure BordaResult where
  winner : Option IAnswer
  rankings : List BordaEntry
  totalReviewers : Nat
deriving DecidableEq

/-- Accumulation step of the bordaTotals object of calculateBordaWinner:
adds one rank entry into an association list keyed by answerId, keeping
first-encounter key order as Object.entries does. -/
def addRankEntry (acc : List (String × Int × List Int)) (e : IAnswerRank) :
    List (String × Int × List Int) :=
  match acc with
  | [] => [(e.answerId, e.bordaPoints, [e.rank])]
  | (k, pts, rks) :: rest =>
    if k = e.answerId then (k, pts + e.bordaPoints, rks ++ [e.rank]) :: rest
    else (k, pts, rks) :: addRankEntry rest e

/-- PeerReviewService.calculateBordaWinner: filters the rankings of the
question, aggregates Borda points and ranks per answerId, sorts rows by
total points descending (stably, as Array.prototype.sort), and looks the
winner up from the top row. The getAnswerById helper of the source is a
placeholder for the external answer store, modelled from the spec as the
lookup argument. -/
def PeerReviewService.calculateBordaWinner (getAnswerById : String → Option IAnswer)
    (answerRankings : List IAnswerRanking) (questionId : String) : BordaResult :=
  let questionRankings := answerRankings.filter (fun r => decide (r.questionId = questionId))
  if questionRankings.length = 0 then ⟨none, [], 0⟩
  else
    let bordaTotals := questionRankings.foldl (fun acc r => r.rankings.foldl addRankEntry acc) []
    let finalRankings := bordaTotals.map (fun t =>
      ({ answerId := t.1
         totalBordaPoints := t.2.1
         averageRank := (t.2.2.map (fun r => (r : Rat))).sum / (t.2.2.length : Rat) } : BordaEntry))
    let sorted := finalRankings.insertionSort (fun a b => b.totalBordaPoints ≤ a.totalBordaPoints)
    let winner := match sorted with
      | [] => none
      | e :: _ => getAnswerById e.answerId
    ⟨winner, sorted, questionRankings.length⟩

/-- Spec-side total: the Borda points an answer collects across all
completed rankings of the question. -/
def bordaPointsFor (rankingList : List IAnswerRanking) (questionId answerId : String) : Int :=
  ((((rankingList.filter (fun r =>
        decide (r.questionId = questionId) && decide (r.status = "completed"))).map
      (fun r => r.rankings)).flatten.filter
      (fun e => decide (e.answerId = answerId))).map (fun e => e.bordaPoints)).sum

/-- Load of the reviewer with the given id, read back from a profile
list; none when the reviewer is absent. -/
def loadOf (profiles : List IReviewerProfile) (id : String) : Option Int :=
  (profiles.find? (fun r => decide (r._id = id))).map (fun r => r.currentReviewLoad)

/-- Spec-side arithmetic mean: sum of the scores over their count, 0 for
an empty list. -/
def specAverage (scores : List Rat) : Rat :=
  if scores.length = 0 then 0 else scores.sum / (scores.length : Rat)

/-- Seed reviewer pool of reviewer-assignment-service.ts, used as a
concrete witness state (creation timestamps normalized to 0). -/
def initialReviewerProfiles : List IReviewerProfile :=
  [{ _id := "reviewer_1", userId := "user_1", expertise := ["science", "technology"],
     reviewCount := 15, averageRating := 42/10, isActive := true,
     maxConcurrentReviews := 5, currentReviewLoad := 2, updatedAt := 0 },
   { _id := "reviewer_2", userId := "user_2", expertise := ["mathematics", "physics"],
     reviewCount := 22, averageRating := 45/10, isActive := true,
     maxConcurrentReviews := 4, currentReviewLoad := 1, updatedAt := 0 },
   { _id := "reviewer_3", userId := "user_3", expertise := ["literature", "history"],
     reviewCount := 8, averageRating := 38/10, isActive := true,
     maxConcurrentReviews := 6, currentReviewLoad := 3, updatedAt := 0 }]

theorem updateFirst_length (p : α → Bool) (f : α → α) (l : List α) :
    (updateFirst p f l).length = l.length := by
  induction l with
  | nil => rfl
  | cons x xs ih => by_cases h : p x <;> simp [updateFirst, h, ih]

theorem mem_updateFirst_of_ne (p : α → Bool) (f : α → α) :
    ∀ {l : List α} {r : α}, r ∈ l → p r = false → r ∈ updateFirst p f l := by
  intro l
  induction l with
  | nil => intro r hr _; cases hr
  | cons x xs ih =>
    intro r hr hpr
    rcases List.mem_cons.mp hr with h | h
    · subst h; simp [updateFirst, hpr]
    · by_cases hx : p x
      · simp only [updateFirst, hx, if_true]
        exact List.mem_cons_of_mem _ h
      · simp only [updateFirst, hx, if_false, Bool.false_eq_true]
        exact List.mem_cons_of_mem _ (ih h hpr)

theorem mem_updateFirst_of_unique (p : α → Bool) (f : α → α) :
    ∀ {l : List α} {r : α}, r ∈ l → p r = true → (∀ x ∈ l, p x = true → x = r) →
      f r ∈ updateFirst p f l := by
  intro l
  induction l with
  | nil => intro r hr _ _; cases hr
  | cons x xs ih =>
    intro r hr hpr huniq
    by_cases hx : p x
    · have hxr : x = r := huniq x (List.mem_cons_self x xs) hx
      subst hxr
      simp [updateFirst, hx]
    · have hrx : r ∈ xs := by
        rcases List.mem_cons.mp hr with h | h
        · subst h; exact absurd hpr hx
        · exact h
      have hrec := ih hrx hpr (fun y hy hpy => huniq y (List.mem_cons_of_mem x hy) hpy)
      simp only [updateFirst, hx, if_false, Bool.false_eq_true]
      exact List.mem_cons_of_mem _ hrec

theorem find?_updateFirst (p : α → Bool) (f : α → α)
    (hpf : ∀ x, p (f x) = p x) :
    ∀ l : List α, (updateFirst p f l).find? p = (l.find? p).map f := by
  intro l
  induction l with
  | nil => rfl
  | cons x xs ih =>
    by_cases hx : p x
    · simp [updateFirst, hx, List.find?_cons_of_pos, hpf]
    · simp only [updateFirst, hx, if_false, Bool.false_eq_true]
      rw [List.find?_cons_of_neg _ hx, List.find?_cons_of_neg _ hx, ih]

theorem eq_of_nodup_key {l : List α} (key : α → β) (hnd : (l.map key).Nodup)
    {x y : α} (hx : x ∈ l) (hy : y ∈ l) (h : key x = key y) : x = y :=
  List.inj_on_of_nodup_map hnd hx hy h

theorem mapM_option_isSome {f : α → Option β} :
    ∀ {l : List α}, (∀ x ∈ l, (f x).isSome = true) → (l.mapM f).isSome = true := by
  intro l
  induction l with
  | nil => intro _; rfl
  | cons x xs ih =>
    intro h
    have hx := h x (List.mem_cons_self x xs)
    have hxs := ih (fun y hy => h y (List.mem_cons_of_mem x hy))
    rw [List.mapM_cons]
    cases hfx : f x with
    | none => rw [hfx] at hx; cases hx
    | some y =>
      cases hms : xs.mapM f with
      | none => rw [hms] at hxs; cases hxs
      | some ys => simp [hfx, hms]

theorem mapM_option_mem {f : α → Option β} :
    ∀ {l : List α} {ys : List β}, l.mapM f = some ys → ∀ y ∈ ys, ∃ x ∈ l, f x = some y := by
  intro l
  induction l with
  | nil =>
    intro ys h y hy
    simp only [List.mapM_nil, pure, Option.some.injEq] at h
    subst h; cases hy
  | cons x xs ih =>
    intro ys h y hy
    rw [List.mapM_cons] at h
    cases hfx : f x with
    | none => rw [hfx] at h; cases h
    | some b =>
      rw [hfx] at h
      cases hms : xs.mapM f with
      | none => rw [hms] at h; cases h
      | some bs =>
        rw [hms] at h
        simp only [Option.bind_some, Option.some.injEq, pure] at h
        have hys : ys = b :: bs := by
          cases h; rfl
        subst hys
        rcases List.mem_cons.mp hy with hyb | hybs
        · exact ⟨x, List.mem_cons_self x xs, by rw [hfx, hyb]⟩
        · rcases ih hms y hybs with ⟨z, hz, hfz⟩
          exact ⟨z, List.mem_cons_of_mem x hz, hfz⟩

theorem toNat_charOfNat_of_lt {n : Nat} (h : n < 55296) : (Char.ofNat n).toNat = n := by
  have hv : n.isValidChar := Or.inl h
  rw [Char.ofNat, dif_pos hv]
  simp [Char.ofNatAux, Char.toNat, UInt32.toNat, BitVec.toNat_ofNatLt]

theorem anonymousLabel_inj {i j : Nat} (hi : i < 55231) (hj : j < 55231)
    (h : anonymousLabel i = anonymousLabel j) : i = j := by
  have hdata := congrArg String.data h
  simp only [anonymousLabel, String.data_append, String.singleton] at hdata
  have hc : Char.ofNat (65 + i) = Char.ofNat (65 + j) := by
    have := List.append_cancel_left hdata
    simpa using this
  have hti := toNat_charOfNat_of_lt (n := 65 + i) (by omega)
  have htj := toNat_charOfNat_of_lt (n := 65 + j) (by omega)
  have : 65 + i = 65 + j := by rw [← hti, ← htj, hc]
  omega

/-- Concrete unsubmitted review stored in the in-memory service. -/
def sampleReview : IPeerReview :=
  { _id := "review_1", answerId := "answer_1", reviewerId := "user_1", score := none,
    similarity := none, status := ReviewStatus.assigned, comments := none,
    assignedAt := 0, submittedAt := none, createdAt := 0, updatedAt := 0 }

/-- Claim C1, counterexample: not every review submission validates the
score. The in-memory PeerReviewService.submitReview, one of the two
submitReview implementations the claim covers, accepts score 0: it
returns true and records the review as submitted with score 0. -/
theorem C1_service_accepts_score_zero :
    (PeerReviewService.submitReview [sampleReview] "review_1" 0 none none 5).1 = true ∧
    (PeerReviewService.submitReview [sampleReview] "review_1" 0 none none 5).2.map
        (fun r => (r.score, r.status, r.submittedAt)) =
      [(some 0, ReviewStatus.submitted, some 5)] := by
  decide

/-- One-reviewer pool: a single active reviewer with spare capacity. -/
def soloReviewer : IReviewerProfile :=
  { _id := "reviewer_1", userId := "user_1", expertise := [], reviewCount := 0,
    averageRating := 0, isActive := true, maxConcurrentReviews := 5,
    currentReviewLoad := 0, updatedAt := 0 }

/-- Prior-round assignment of soloReviewer for the answer. -/
def priorAssignment : IReviewerAssignment :=
  { _id := "assignment_0", answerId := "aaaaaaaaaaaaaaaaaaaaaaaa",
    reviewerId := "reviewer_1", assignedAt := 0, dueDate := none,
    priority := "medium", status := AssignmentStatus.completed,
    createdAt := 0, updatedAt := 0 }

/-- Claim C2, failing run: triggering the next round for an answer whose
only prior reviewer is reviewer_1 selects reviewer_1 again, because the
exclusion list computed by assignNextRoundReviewers is passed as a
fourth argument that assignReviewersToAnswer does not declare. -/
theorem C2_next_round_reselects_prior_reviewer :
    ((AnswerService.assignNextRoundReviewers [priorAssignment] ⟨[soloReviewer], []⟩
        "aaaaaaaaaaaaaaaaaaaaaaaa" 0).1.map (fun a => a.reviewerId) = ["reviewer_1"]) ∧
    (∃ a ∈ [priorAssignment], a.answerId = "aaaaaaaaaaaaaaaaaaaaaaaa" ∧
        a.reviewerId = "reviewer_1") := by
  decide

/-- Claim C3, failing run: the created assignment has status pending, but
its dueDate is twice the creation time plus the 24 hour urgent window,
because getDueDateForPriority already adds Date.now() and the call site
adds Date.now() again; at creation time 1000 the claimed value would be
1000 + 86400000. -/
theorem C3_dueDate_not_now_plus_window :
    ((ReviewerAssignmentService.assignReviewersToAnswer ⟨[soloReviewer], []⟩
        "answer_1" "urgent" none 1000).1.map (fun a => (a.dueDate, a.status)) =
      [(some (2 * 1000 + 86400000), AssignmentStatus.pending)]) ∧
    (2 * 1000 + 86400000 : Int) ≠ 1000 + 86400000 := by
  decide

/-- Claim C7: updateAssignmentStatus returns false and changes nothing
when no assignment with the given id exists; a transition to completed
decrements the load of the assigned reviewer by 1 floored at 0, so a
nonnegative load stays nonnegative, and a repeated call keeps the
premise 0 le load satisfied, hence the load is never driven below 0. -/
theorem C7_updateAssignmentStatus_spec (s : AssignState) (assignmentId : String) (now : Int) :
    (∀ status, s.reviewerAssignments.find? (fun a => decide (a._id = assignmentId)) = none →
      ReviewerAssignmentService.updateAssignmentStatus s assignmentId status now = (false, s)) ∧
    (∀ a, s.reviewerAssignments.find? (fun x => decide (x._id = assignmentId)) = some a →
      (s.reviewerProfiles.map (fun r => r._id)).Nodup →
      ∀ r ∈ s.reviewerProfiles, r._id = a.reviewerId → 0 ≤ r.currentReviewLoad →
        (ReviewerAssignmentService.updateAssignmentStatus s assignmentId
            AssignmentStatus.completed now).1 = true ∧
        loadOf (ReviewerAssignmentService.updateAssignmentStatus s assignmentId
            AssignmentStatus.completed now).2.reviewerProfiles a.reviewerId =
          some (max (r.currentReviewLoad - 1) 0)) := by
  constructor
  · intro status hnone
    simp [ReviewerAssignmentService.updateAssignmentStatus, hnone]
  · intro a ha hnd r hr hrid hload
    have hdec : ∀ x : IReviewerProfile,
        (fun q : IReviewerProfile => decide (q._id = a.reviewerId))
          ((fun q : IReviewerProfile =>
            if 0 < q.currentReviewLoad then
              { q with currentReviewLoad := q.currentReviewLoad - 1, updatedAt := now }
            else q) x) =
        (fun q : IReviewerProfile => decide (q._id = a.reviewerId)) x := by
      intro x
      by_cases hx : 0 < x.currentReviewLoad <;> simp [hx]
    have hfind : s.reviewerProfiles.find? (fun q => decide (q._id = a.reviewerId)) = some r := by
      have hsome : (s.reviewerProfiles.find? (fun q => decide (q._id = a.reviewerId))).isSome := by
        rw [List.find?_isSome]
        exact ⟨r, hr, by simp [hrid]⟩
      rcases Option.isSome_iff_exists.mp hsome with ⟨q, hq⟩
      have hqmem := List.mem_of_find?_eq_some hq
      have hqid : q._id = a.reviewerId := by
        have := List.find?_some hq
        simpa using this
      have hqr : q = r := eq_of_nodup_key (fun p => p._id) hnd hqmem hr
        (by show q._id = r._id; rw [hqid, hrid])
      rw [hq, hqr]
    constructor
    · simp [ReviewerAssignmentService.updateAssignmentStatus, ha]
    · simp only [ReviewerAssignmentService.updateAssignmentStatus, ha, loadOf, if_pos rfl,
        if_true]
      rw [find?_updateFirst (fun q : IReviewerProfile => decide (q._id = a.reviewerId))
        (fun q : IReviewerProfile =>
          if 0 < q.currentReviewLoad then
            { q with currentReviewLoad := q.currentReviewLoad - 1, updatedAt := now }
          else q) hdec]
      rw [hfind]
      simp only [Option.map_some, Option.map_some', Option.some.injEq]
      by_cases hpos : 0 < r.currentReviewLoad
      · rw [if_pos hpos]
        show r.currentReviewLoad - 1 = max (r.currentReviewLoad - 1) 0
        omega
      · rw [if_neg hpos]
        show r.currentReviewLoad = max (r.currentReviewLoad - 1) 0
        omega

/-- Pending assignment of soloReviewer, used as a concrete witness. -/
def soloAssignment : IReviewerAssignment :=
  { _id := "assignment_1", answerId := "answer_1", reviewerId := "reviewer_1",
    assignedAt := 0, dueDate := none, priority := "medium",
    status := AssignmentStatus.pending, createdAt := 0, updatedAt := 0 }

/-- Concrete assignment-service state for the C7 witness. -/
def soloState : AssignState :=
  { reviewerProfiles := [soloReviewer], reviewerAssignments := [soloAssignment] }

/-- Witness for C7: completing the only assignment of a reviewer whose
load is already 0 keeps the load at 0. -/
theorem C7_updateAssignmentStatus_witness :
    (0 : Int) ≤ soloReviewer.currentReviewLoad ∧
    ((ReviewerAssignmentService.updateAssignmentStatus soloState "assignment_1"
        AssignmentStatus.completed 5).1 = true ∧
      loadOf (ReviewerAssignmentService.updateAssignmentStatus soloState "assignment_1"
          AssignmentStatus.completed 5).2.reviewerProfiles soloAssignment.reviewerId =
        some (max (soloReviewer.currentReviewLoad - 1) 0)) :=
  ⟨by decide,
   (C7_updateAssignmentStatus_spec soloState "assignment_1" 5).2 soloAssignment (by decide)
     (by decide) soloReviewer (by decide) rfl (by decide)⟩

theorem find?_key_unique [DecidableEq β] (key : α → β) {l : List α}
    (hnd : (l.map key).Nodup) {r : α} (hr : r ∈ l) :
    l.find? (fun x => decide (key x = key r)) = some r := by
  have hsome : (l.find? (fun x => decide (key x = key r))).isSome := by
    rw [List.find?_isSome]
    exact ⟨r, hr, by simp⟩
  rcases Option.isSome_iff_exists.mp hsome with ⟨q, hq⟩
  have hqmem := List.mem_of_find?_eq_some hq
  have hqkey : key q = key r := by simpa using List.find?_some hq
  have hqr : q = r := eq_of_nodup_key key hnd hqmem hr hqkey
  rw [hq, hqr]

theorem loadOf_map (g : IReviewerProfile → IReviewerProfile)
    (hg : ∀ p, (g p)._id = p._id) (l : List IReviewerProfile) (id : String) :
    loadOf (l.map g) id =
      (l.find? (fun p => decide (p._id = id))).map (fun p => (g p).currentReviewLoad) := by
  induction l with
  | nil => rfl
  | cons x xs ih =>
    simp only [List.map_cons, loadOf]
    by_cases hx : x._id = id
    · rw [List.find?_cons_of_pos (p := fun q : IReviewerProfile => decide (q._id = id))
          (a := g x) _ (by simp [hg, hx]),
        List.find?_cons_of_pos (p := fun q : IReviewerProfile => decide (q._id = id))
          (a := x) _ (by simp [hx])]
      rfl
    · rw [List.find?_cons_of_neg (p := fun q : IReviewerProfile => decide (q._id = id))
          (a := g x) _ (by simp [hg, hx]),
        List.find?_cons_of_neg (p := fun q : IReviewerProfile => decide (q._id = id))
          (a := x) _ (by simp [hx])]
      exact ih

theorem mem_candidatePool {profiles : List IReviewerProfile}
    {re : Option (List String)} {r : IReviewerProfile}
    (h : r ∈ candidatePool profiles re) : r ∈ availableProfiles profiles := by
  cases re with
  | none =>
    simp only [candidatePool] at h
    rw [if_neg (by simp)] at h
    exact h
  | some es =>
    by_cases hes : 0 < es.length
    · simp only [candidatePool, if_pos hes] at h
      split at h
      · exact h
      · exact List.mem_of_mem_filter h
    · simp only [candidatePool, if_neg hes] at h
      rw [if_neg (by simp [hes])] at h
      exact h

theorem mem_selectedReviewers {profiles : List IReviewerProfile}
    {re : Option (List String)} {priority : String} {r : IReviewerProfile}
    (h : r ∈ selectedReviewers profiles re priority) : r ∈ candidatePool profiles re := by
  simp only [selectedReviewers, sortedCandidates] at h
  exact (List.mem_insertionSort _).mp (List.mem_of_mem_take h)

theorem length_selectedReviewers (profiles : List IReviewerProfile)
    (re : Option (List String)) (priority : String) :
    (selectedReviewers profiles re priority).length ≤ 3 := by
  simp only [selectedReviewers]
  rw [List.length_take]
  omega

/-- Claim C4: for every reviewer pool and priority, assignReviewersToAnswer
selects at most 3 reviewers, selects only active reviewers whose load is
strictly below their capacity, and the updated pool records each selected
reviewer with a load incremented by exactly 1. -/
theorem C4_assignReviewers_bounds (s : AssignState) (answerId priority : String)
    (requiredExpertise : Option (List String)) (now : Int)
    (hnd : (s.reviewerProfiles.map (fun r => r._id)).Nodup) :
    (ReviewerAssignmentService.assignReviewersToAnswer s answerId priority
        requiredExpertise now).1.length ≤ 3 ∧
    ∀ a ∈ (ReviewerAssignmentService.assignReviewersToAnswer s answerId priority
        requiredExpertise now).1,
      ∃ r ∈ s.reviewerProfiles,
        a.reviewerId = r._id ∧ r.isActive = true ∧
        r.currentReviewLoad < r.maxConcurrentReviews ∧
        loadOf (ReviewerAssignmentService.assignReviewersToAnswer s answerId priority
            requiredExpertise now).2.reviewerProfiles r._id =
          some (r.currentReviewLoad + 1) := by
  constructor
  · simp only [ReviewerAssignmentService.assignReviewersToAnswer]
    rw [List.length_map]
    exact length_selectedReviewers s.reviewerProfiles requiredExpertise priority
  · intro a ha
    simp only [ReviewerAssignmentService.assignReviewersToAnswer] at ha ⊢
    rcases List.mem_map.mp ha with ⟨r, hrsel, rfl⟩
    have havail0 := mem_candidatePool (mem_selectedReviewers hrsel)
    rw [availableProfiles, List.mem_filter, Bool.and_eq_true] at havail0
    obtain ⟨hmem, hact, hcap⟩ := havail0
    refine ⟨r, hmem, rfl, hact, by simpa using hcap, ?_⟩
    have hg : ∀ p : IReviewerProfile,
        ((fun p : IReviewerProfile =>
          if (selectedReviewers s.reviewerProfiles requiredExpertise priority).any
              (fun x => decide (x._id = p._id)) then
            { p with currentReviewLoad := p.currentReviewLoad + 1, updatedAt := now }
          else p) p)._id = p._id := by
      intro p
      dsimp only
      split <;> rfl
    rw [loadOf_map _ hg]
    rw [find?_key_unique (fun p : IReviewerProfile => p._id) hnd hmem]
    have hany : (selectedReviewers s.reviewerProfiles requiredExpertise priority).any
        (fun x => decide (x._id = r._id)) = true :=
      List.any_eq_true.mpr ⟨r, hrsel, by simp⟩
    simp only [Option.map_some, Option.map_some', Option.some.injEq]
    rw [if_pos hany]

/-- Witness for C4 over the seed reviewer pool of the source. -/
theorem C4_assignReviewers_witness :
    (ReviewerAssignmentService.assignReviewersToAnswer
        { reviewerProfiles := initialReviewerProfiles, reviewerAssignments := [] }
        "answer_1" "medium" none 0).1.length ≤ 3 :=
  (C4_assignReviewers_bounds
      { reviewerProfiles := initialReviewerProfiles, reviewerAssignments := [] }
      "answer_1" "medium" none 0 (by decide)).1

/-- Claim C1, amended: the Mongo-backed PeerReviewRepository.submitReview
(the implementation on the transactional submission path) validates
1 le score le 5 and fails otherwise, so it rejects score 0 and score 6
and accepts 1 and 5; on success it sets the matching review to status
submitted with submittedAt set, and persists comments and similarity
exactly when provided, keeping the stored values otherwise. The legacy
in-memory PeerReviewService.submitReview performs no score validation,
which is what the counterexample exhibits. -/
theorem C1_repo_submitReview_validates (peerReviews : List IPeerReview) (reviewId : String)
    (score : Rat) (comments : Option String) (similarity : Option Rat) (now : Int)
    (hvalid : isValidObjectId reviewId = true)
    (hnd : (peerReviews.map (fun r => r._id)).Nodup) :
    (score < 1 ∨ 5 < score →
      PeerReviewRepository.submitReview peerReviews reviewId score comments similarity now =
        Except.error "Score must be between 1 and 5") ∧
    (1 ≤ score → score ≤ 5 →
      ∃ st,
        PeerReviewRepository.submitReview peerReviews reviewId score comments similarity now =
          Except.ok
            ((if peerReviews.any (fun r => decide (r._id = reviewId)) then 1 else 0), st) ∧
        st.length = peerReviews.length ∧
        ∀ r ∈ peerReviews,
          (r._id ≠ reviewId → r ∈ st) ∧
          (r._id = reviewId →
            ({ r with
               score := some score
               status := ReviewStatus.submitted
               submittedAt := some now
               updatedAt := now
               comments := (match comments with | some c => some c | none => r.comments)
               similarity :=
                 (match similarity with | some v => some v | none => r.similarity) } :
              IPeerReview) ∈ st)) := by
  constructor
  · intro hbad
    simp only [PeerReviewRepository.submitReview]
    rw [if_neg (by simp [hvalid]), if_pos hbad]
  · intro h1 h5
    have hok : ¬ (score < 1 ∨ 5 < score) := by
      push_neg
      exact ⟨h1, h5⟩
    refine ⟨updateFirst (fun r => decide (r._id = reviewId))
        (submitReviewUpdate score comments similarity now) peerReviews, ?_, ?_, ?_⟩
    · simp only [PeerReviewRepository.submitReview]
      rw [if_neg (by simp [hvalid]), if_neg hok]
    · exact updateFirst_length _ _ _
    · intro r hr
      constructor
      · intro hne
        exact mem_updateFirst_of_ne _ _ hr (by simp [hne])
      · intro hid
        have huniq : ∀ x ∈ peerReviews,
            (fun q : IPeerReview => decide (q._id = reviewId)) x = true → x = r := by
          intro x hx hpx
          apply eq_of_nodup_key (fun q : IPeerReview => q._id) hnd hx hr
          show x._id = r._id
          rw [hid]
          simpa using hpx
        have hrec := mem_updateFirst_of_unique
          (fun q : IPeerReview => decide (q._id = reviewId))
          (submitReviewUpdate score comments similarity now) hr (by simp [hid]) huniq
        cases comments <;> cases similarity <;>
          simpa [submitReviewUpdate] using hrec

/-- Stored review with a Mongo-style id, used by the C1 witness. -/
def validReview : IPeerReview :=
  { _id := "aaaaaaaaaaaaaaaaaaaaaaaa", answerId := "bbbbbbbbbbbbbbbbbbbbbbbb",
    reviewerId := "cccccccccccccccccccccccc", score := none, similarity := none,
    status := ReviewStatus.assigned, comments := none, assignedAt := 0,
    submittedAt := none, createdAt := 0, updatedAt := 0 }

/-- Witness for the amended C1 at score 3 with comments provided. -/
theorem C1_repo_submitReview_witness :
    1 ≤ (3 : Rat) ∧ (3 : Rat) ≤ 5 ∧
    (∃ st,
      PeerReviewRepository.submitReview [validReview] "aaaaaaaaaaaaaaaaaaaaaaaa" 3
          (some "ok") none 9 =
        Except.ok
          ((if [validReview].any (fun r => decide (r._id = "aaaaaaaaaaaaaaaaaaaaaaaa"))
            then 1 else 0), st) ∧
      st.length = [validReview].length ∧
      ∀ r ∈ [validReview],
        (r._id ≠ "aaaaaaaaaaaaaaaaaaaaaaaa" → r ∈ st) ∧
        (r._id = "aaaaaaaaaaaaaaaaaaaaaaaa" →
          ({ r with
             score := some 3
             status := ReviewStatus.submitted
             submittedAt := some 9
             updatedAt := 9
             comments := (match (some "ok" : Option String) with
               | some c => some c
               | none => r.comments)
             similarity := (match (none : Option Rat) with
               | some v => some v
               | none => r.similarity) } : IPeerReview) ∈ st)) :=
  ⟨by norm_num, by norm_num,
   (C1_repo_submitReview_validates [validReview] "aaaaaaaaaaaaaaaaaaaaaaaa" 3
       (some "ok") none 9 (by decide) (by decide)).2 (by norm_num) (by norm_num)⟩

/-- Claim C5: getReviewStatsForAnswer counts as completed exactly the
reviews of the answer with status submitted and a defined score, returns
as averageScore the arithmetic mean of those scores (0 when there are
none), and sets thresholdReached exactly when the average is at least
3.5 and at least 3 reviews are completed. -/
theorem C5_reviewStats_spec (peerReviews : List IPeerReview) (answerId : String)
    (hvalid : isValidObjectId answerId = true) :
    ∃ stats,
      PeerReviewRepository.getReviewStatsForAnswer peerReviews answerId = Except.ok stats ∧
      stats.completedReviews =
        (completedSubmittedReviews
          (peerReviews.filter (fun r => decide (r.answerId = answerId)))).length ∧
      stats.averageScore =
        specAverage ((completedSubmittedReviews
          (peerReviews.filter (fun r => decide (r.answerId = answerId)))).map
            (fun r => r.score.getD 0)) ∧
      (stats.thresholdReached = true ↔
        (7 : Rat)/2 ≤ stats.averageScore ∧ 3 ≤ stats.completedReviews) := by
  have hperm : List.Perm
      (completedSubmittedReviews
        ((peerReviews.filter (fun r => decide (r.answerId = answerId))).insertionSort
          (fun a b => a.createdAt ≤ b.createdAt)))
      (completedSubmittedReviews
        (peerReviews.filter (fun r => decide (r.answerId = answerId)))) := by
    simp only [completedSubmittedReviews]
    exact (List.perm_insertionSort _ _).filter _
  have hlen := hperm.length_eq
  have hsum := (hperm.map (fun r => r.score.getD 0)).sum_eq
  simp only [PeerReviewRepository.getReviewStatsForAnswer,
    PeerReviewRepository.getReviewsForAnswer]
  rw [if_neg (by simp [hvalid]), if_neg (by simp [hvalid])]
  refine ⟨_, rfl, ?_, ?_, ?_⟩
  · exact hlen
  · show (if 0 < (completedSubmittedReviews _).length then _ else 0) = _
    rw [hlen, hsum]
    simp only [specAverage, List.length_map]
    by_cases hz :
      (completedSubmittedReviews
        (peerReviews.filter (fun r => decide (r.answerId = answerId)))).length = 0
    · simp [hz]
    · rw [if_pos (Nat.pos_of_ne_zero hz), if_neg hz]
  · simp [Bool.and_eq_true, decide_eq_true_eq]

/-- First of three submitted reviews of one answer scored 4, 4, 3. -/
def review443a : IPeerReview :=
  { validReview with
    _id := "aaaaaaaaaaaaaaaaaaaaaa01"
    score := some 4
    status := ReviewStatus.submitted
    createdAt := 0 }

/-- Three submitted reviews of one answer scored 4, 4 and 3. -/
def reviews443 : List IPeerReview :=
  [review443a,
   { validReview with
      _id := "aaaaaaaaaaaaaaaaaaaaaa02"
      score := some 4
      status := ReviewStatus.submitted
      createdAt := 1 },
   { validReview with
      _id := "aaaaaaaaaaaaaaaaaaaaaa03"
      score := some 3
      status := ReviewStatus.submitted
      createdAt := 2 }]

/-- Two submitted reviews of one answer scored 4 and 3. -/
def reviews43 : List IPeerReview :=
  [{ validReview with
      _id := "review_a"
      score := some 4
      status := ReviewStatus.submitted
      createdAt := 0 },
   { validReview with
      _id := "review_b"
      score := some 3
      status := ReviewStatus.submitted
      createdAt := 1 }]

/-- Witness for C5: scores 4, 4, 3 give average 11/3 (3.67 to two
decimals) with the threshold reached; scores 4, 3 leave the threshold
unreached because only 2 reviews are completed. -/
theorem C5_reviewStats_witness :
    (PeerReviewRepository.getReviewStatsForAnswer reviews443 "bbbbbbbbbbbbbbbbbbbbbbbb" =
      Except.ok ⟨3, 3, 11/3, true⟩) ∧
    (PeerReviewRepository.getReviewStatsForAnswer reviews43 "bbbbbbbbbbbbbbbbbbbbbbbb" =
      Except.ok ⟨2, 2, 7/2, false⟩) ∧
    (∃ stats,
      PeerReviewRepository.getReviewStatsForAnswer reviews443 "bbbbbbbbbbbbbbbbbbbbbbbb" =
        Except.ok stats ∧
      stats.completedReviews =
        (completedSubmittedReviews
          (reviews443.filter (fun r => decide (r.answerId = "bbbbbbbbbbbbbbbbbbbbbbbb")))).length ∧
      stats.averageScore =
        specAverage ((completedSubmittedReviews
          (reviews443.filter (fun r => decide (r.answerId = "bbbbbbbbbbbbbbbbbbbbbbbb")))).map
            (fun r => r.score.getD 0)) ∧
      (stats.thresholdReached = true ↔
        (7 : Rat)/2 ≤ stats.averageScore ∧ 3 ≤ stats.completedReviews)) := by
  refine ⟨?_, ?_, C5_reviewStats_spec reviews443 "bbbbbbbbbbbbbbbbbbbbbbbb" (by decide)⟩
  · have hget : PeerReviewRepository.getReviewsForAnswer reviews443
        "bbbbbbbbbbbbbbbbbbbbbbbb" = Except.ok reviews443 := by
      simp only [PeerReviewRepository.getReviewsForAnswer]
      rw [if_neg (by decide)]
      exact congrArg Except.ok (by decide)
    have hcomp : completedSubmittedReviews reviews443 = reviews443 := by decide
    have hmap : reviews443.map (fun r => r.score.getD 0) = [4, 4, 3] := by decide
    have hlen : reviews443.length = 3 := by decide
    simp only [PeerReviewRepository.getReviewStatsForAnswer, hget]
    rw [if_neg (by decide), hcomp, hmap, hlen]
    simp only [Except.ok.injEq, ReviewStats.mk.injEq, List.sum_cons, List.sum_nil,
      Bool.and_eq_true, decide_eq_true_eq]
    norm_num
  · have hget : PeerReviewRepository.getReviewsForAnswer reviews43
        "bbbbbbbbbbbbbbbbbbbbbbbb" = Except.ok reviews43 := by
      simp only [PeerReviewRepository.getReviewsForAnswer]
      rw [if_neg (by decide)]
      exact congrArg Except.ok (by decide)
    have hcomp : completedSubmittedReviews reviews43 = reviews43 := by decide
    have hmap : reviews43.map (fun r => r.score.getD 0) = [4, 3] := by decide
    have hlen : reviews43.length = 2 := by decide
    simp only [PeerReviewRepository.getReviewStatsForAnswer, hget]
    rw [if_neg (by decide), hcomp, hmap, hlen]
    simp only [Except.ok.injEq, ReviewStats.mk.injEq, List.sum_cons, List.sum_nil]
    norm_num

/-- First of two submitted reviews of one answer both scored 3. -/
def review33a : IPeerReview :=
  { validReview with
    _id := "aaaaaaaaaaaaaaaaaaaaaa11"
    score := some 3
    status := ReviewStatus.submitted
    createdAt := 0 }

/-- Two submitted reviews of one answer both scored 3: their average 3
is below the 3.5 threshold. -/
def reviews33 : List IPeerReview :=
  [review33a,
   { validReview with
      _id := "aaaaaaaaaaaaaaaaaaaaaa12"
      score := some 3
      status := ReviewStatus.submitted
      createdAt := 1 }]

/-- Claim C6: on a review submission, the next round is triggered exactly
when the stats of the reviewed answer have at least 2 completed reviews
and the threshold reached; in particular with 2 submitted reviews of
average 3, below the threshold, no next round is triggered. -/
theorem C6_trigger_iff (peerReviews : List IPeerReview) (reviewId : String)
    (review : IPeerReview)
    (hfound : PeerReviewRepository.getReviewById peerReviews reviewId =
      Except.ok (some review))
    (hvalid : isValidObjectId review.answerId = true) :
    (AnswerService.checkAndTriggerNextReviewRound peerReviews reviewId = Except.ok true ↔
      ∃ stats,
        PeerReviewRepository.getReviewStatsForAnswer peerReviews review.answerId =
          Except.ok stats ∧
        2 ≤ stats.completedReviews ∧ stats.thresholdReached = true) ∧
    AnswerService.checkAndTriggerNextReviewRound reviews33 "aaaaaaaaaaaaaaaaaaaaaa11" =
      Except.ok false := by
  constructor
  · have hstats : ∃ stats,
        PeerReviewRepository.getReviewStatsForAnswer peerReviews review.answerId =
          Except.ok stats := by
      simp only [PeerReviewRepository.getReviewStatsForAnswer,
        PeerReviewRepository.getReviewsForAnswer]
      rw [if_neg (by simp [hvalid]), if_neg (by simp [hvalid])]
      exact ⟨_, rfl⟩
    obtain ⟨stats, hstats⟩ := hstats
    simp only [AnswerService.checkAndTriggerNextReviewRound, hfound, hstats]
    constructor
    · intro h
      refine ⟨stats, rfl, ?_⟩
      simpa [Bool.and_eq_true, decide_eq_true_eq] using h
    · rintro ⟨stats2, hstats2, h2, hthr⟩
      have hs : stats2 = stats := ((Except.ok.injEq _ _).mp hstats2).symm
      subst hs
      simp [Bool.and_eq_true, decide_eq_true_eq, h2, hthr]
  · have hrv : PeerReviewRepository.getReviewById reviews33 "aaaaaaaaaaaaaaaaaaaaaa11" =
        Except.ok (some review33a) := by
      simp only [PeerReviewRepository.getReviewById]
      rw [if_neg (by decide)]
      exact congrArg Except.ok (by decide)
    have hget : PeerReviewRepository.getReviewsForAnswer reviews33 review33a.answerId =
        Except.ok reviews33 := by
      simp only [PeerReviewRepository.getReviewsForAnswer]
      rw [if_neg (by decide)]
      exact congrArg Except.ok (by decide)
    have hcomp : completedSubmittedReviews reviews33 = reviews33 := by decide
    have hmap : reviews33.map (fun r => r.score.getD 0) = [3, 3] := by decide
    have hlen : reviews33.length = 2 := by decide
    have hstats : PeerReviewRepository.getReviewStatsForAnswer reviews33 review33a.answerId =
        Except.ok ⟨2, 2, 3, false⟩ := by
      simp only [PeerReviewRepository.getReviewStatsForAnswer, hget]
      rw [if_neg (by decide), hcomp, hmap, hlen]
      simp only [Except.ok.injEq, ReviewStats.mk.injEq, List.sum_cons, List.sum_nil]
      norm_num
    simp only [AnswerService.checkAndTriggerNextReviewRound, hrv, hstats]
    simp

/-- Witness for C6 at the reviews scored 4, 4, 3: the submitted review is
found, its answer id is well formed, and the iff applies. -/
theorem C6_trigger_witness :
    AnswerService.checkAndTriggerNextReviewRound reviews443 "aaaaaaaaaaaaaaaaaaaaaa01" =
        Except.ok true ↔
      ∃ stats,
        PeerReviewRepository.getReviewStatsForAnswer reviews443 review443a.answerId =
          Except.ok stats ∧
        2 ≤ stats.completedReviews ∧ stats.thresholdReached = true :=
  (C6_trigger_iff reviews443 "aaaaaaaaaaaaaaaaaaaaaa01" review443a
    (by
      simp only [PeerReviewRepository.getReviewById]
      rw [if_neg (by decide)]
      exact congrArg Except.ok (by decide))
    (by decide)).1

/-- Claim C9: for a reviewer who authored exactly one of the N input
answers, createBlindAssignment returns exactly N-1 mappings, none of
which is the reviewer own answer, labelled in input order Answer A,
Answer B, and so on (character code 65 plus index), with labels unique
within the assignment. The length bound keeps every label code a valid
character. -/
theorem C9_createBlindAssignment_spec (blind : List IBlindReviewAssignment)
    (reviewerId questionId : String) (answers : List IAnswer) (now : Int)
    (hone : (answers.filter (fun a => decide (a.authorId = reviewerId))).length = 1)
    (hb : answers.length ≤ 1000) :
    (PeerReviewService.createBlindAssignment blind reviewerId questionId answers
        now).1.answerMappings.length = answers.length - 1 ∧
    (∀ mp ∈ (PeerReviewService.createBlindAssignment blind reviewerId questionId answers
        now).1.answerMappings,
      mp.authorId ≠ reviewerId ∧
      ∃ a ∈ answers, a.authorId ≠ reviewerId ∧ mp.realAnswerId = a._id ∧
        mp.authorId = a.authorId) ∧
    (PeerReviewService.createBlindAssignment blind reviewerId questionId answers
        now).1.answerMappings.map (fun mp => mp.anonymousId) =
      (List.range (answers.length - 1)).map anonymousLabel ∧
    ((PeerReviewService.createBlindAssignment blind reviewerId questionId answers
        now).1.answerMappings.map (fun mp => mp.anonymousId)).Nodup := by
  have hlen : (answers.filter (fun a => !(decide (a.authorId = reviewerId)))).length =
      answers.length - 1 := by
    have := List.length_eq_length_filter_add (l := answers)
      (fun a => decide (a.authorId = reviewerId))
    omega
  have hlabels : (PeerReviewService.createBlindAssignment blind reviewerId questionId answers
        now).1.answerMappings.map (fun mp => mp.anonymousId) =
      (List.range (answers.length - 1)).map anonymousLabel := by
    simp only [PeerReviewService.createBlindAssignment]
    rw [List.map_map]
    have hfst : ((answers.filter (fun a => !(decide (a.authorId = reviewerId)))).enum.map
        (fun p => anonymousLabel p.1)) =
        (((answers.filter (fun a => !(decide (a.authorId = reviewerId)))).enum.map
          Prod.fst).map anonymousLabel) := by
      rw [List.map_map]
      rfl
    refine hfst.trans ?_
    rw [List.enum_eq_enumFrom, List.enumFrom_map_fst, ← List.range_eq_range', hlen]
  refine ⟨?_, ?_, hlabels, ?_⟩
  · simp only [PeerReviewService.createBlindAssignment]
    rw [List.length_map, List.enum_eq_enumFrom, List.enumFrom_length, hlen]
  · intro mp hmp
    simp only [PeerReviewService.createBlindAssignment] at hmp
    rcases List.mem_map.mp hmp with ⟨p, hp, rfl⟩
    have hsnd : p.2 ∈ answers.filter (fun a => !(decide (a.authorId = reviewerId))) := by
      have := List.mem_map_of_mem Prod.snd hp
      rwa [List.enum_eq_enumFrom, List.enumFrom_map_snd] at this
    obtain ⟨ha, hpred⟩ := List.mem_filter.mp hsnd
    have hne : p.2.authorId ≠ reviewerId := by simpa using hpred
    exact ⟨hne, p.2, ha, hne, rfl, rfl⟩
  · rw [hlabels]
    refine List.Nodup.map_on ?_ (List.nodup_range _)
    intro i hi j hj hij
    have hi2 : i < 55231 := by
      have := List.mem_range.mp hi
      omega
    have hj2 : j < 55231 := by
      have := List.mem_range.mp hj
      omega
    exact anonymousLabel_inj hi2 hj2 hij

/-- Three answers to one question, the first authored by the reviewer. -/
def blindAnswers : List IAnswer :=
  [{ _id := "answer_1", questionId := "question_1", authorId := "reviewer_9", answer := "x" },
   { _id := "answer_2", questionId := "question_1", authorId := "author_2", answer := "y" },
   { _id := "answer_3", questionId := "question_1", authorId := "author_3", answer := "z" }]

/-- Witness for C9: with 3 answers, one authored by the reviewer, the
assignment has 2 mappings labelled Answer A and Answer B. -/
theorem C9_createBlindAssignment_witness :
    ((PeerReviewService.createBlindAssignment [] "reviewer_9" "question_1" blindAnswers
        0).1.answerMappings.map (fun mp => mp.anonymousId) =
      (List.range (blindAnswers.length - 1)).map anonymousLabel) ∧
    ((PeerReviewService.createBlindAssignment [] "reviewer_9" "question_1" blindAnswers
        0).1.answerMappings.map (fun mp => mp.anonymousId)).Nodup :=
  ⟨(C9_createBlindAssignment_spec [] "reviewer_9" "question_1" blindAnswers 0
      (by decide) (by decide)).2.2.1,
   (C9_createBlindAssignment_spec [] "reviewer_9" "question_1" blindAnswers 0
      (by decide) (by decide)).2.2.2⟩

/-- Blind assignment whose only mapping is labelled Answer A. -/
def faultAssignment : IBlindReviewAssignment :=
  { _id := "blind_0", reviewerId := "reviewer_9", questionId := "question_1",
    answerMappings := [{ anonymousId := "Answer A", realAnswerId := "answer_2",
                         authorId := "author_2" }],
    status := "assigned", createdAt := 0, updatedAt := 0 }

/-- Blind state holding only faultAssignment. -/
def faultState : BlindState :=
  { blindAssignments := [faultAssignment], answerRankings := [] }

/-- Claim C10: submitBlindRanking returns a boolean, false exactly when
no blind assignment matches, only under the precondition that every
submitted anonymousId occurs among the answerMappings of the matching
assignment; when a matching assignment exists but an entry has no
mapping, the unguarded lookup faults (modelled by none) instead of
returning false, as the concrete run shows. -/
theorem C10_submitBlindRanking_partiality :
    (∀ (s : BlindState) (reviewerId questionId : String) (inputs : List RankingInput)
        (now : Int) (a : IBlindReviewAssignment),
      PeerReviewService.getBlindAssignment s.blindAssignments reviewerId questionId = some a →
      (∀ i ∈ inputs, ∃ m ∈ a.answerMappings, m.anonymousId = i.anonymousId) →
      ∃ s2, PeerReviewService.submitBlindRanking s reviewerId questionId inputs now =
        some (true, s2)) ∧
    (∀ (s : BlindState) (reviewerId questionId : String) (inputs : List RankingInput)
        (now : Int),
      PeerReviewService.getBlindAssignment s.blindAssignments reviewerId questionId = none →
      PeerReviewService.submitBlindRanking s reviewerId questionId inputs now =
        some (false, s)) ∧
    PeerReviewService.submitBlindRanking faultState "reviewer_9" "question_1"
      [{ anonymousId := "Answer Z", rank := 1 }] 0 = none := by
  refine ⟨?_, ?_, by decide⟩
  · intro s reviewerId questionId inputs now a hget hpre
    simp only [PeerReviewService.submitBlindRanking, hget]
    obtain ⟨ranks, hranks⟩ := Option.isSome_iff_exists.mp
      (mapM_option_isSome
        (f := fun ranking : RankingInput =>
          (a.answerMappings.find?
            (fun m => decide (m.anonymousId = ranking.anonymousId))).map
            (fun mapping =>
              ({ answerId := mapping.realAnswerId
                 anonymousId := ranking.anonymousId
                 rank := ranking.rank
                 bordaPoints := (inputs.length : Int) - ranking.rank } : IAnswerRank)))
        (by
          intro x hx
          rcases hpre x hx with ⟨m, hm, hmid⟩
          have hfs : (a.answerMappings.find?
              (fun mm => decide (mm.anonymousId = x.anonymousId))).isSome := by
            rw [List.find?_isSome]
            exact ⟨m, hm, by simp [hmid]⟩
          rcases Option.isSome_iff_exists.mp hfs with ⟨mm, hmm⟩
          simp [hmm]))
    rw [hranks]
    exact ⟨_, rfl⟩
  · intro s reviewerId questionId inputs now h
    simp only [PeerReviewService.submitBlindRanking, h]

/-- Witness for C10: with the single mapping Answer A and a ranking that
uses Answer A, submitBlindRanking succeeds with true. -/
theorem C10_submitBlindRanking_witness :
    ∃ s2, PeerReviewService.submitBlindRanking faultState "reviewer_9" "question_1"
      [{ anonymousId := "Answer A", rank := 1 }] 0 = some (true, s2) :=
  C10_submitBlindRanking_partiality.1 faultState "reviewer_9" "question_1"
    [{ anonymousId := "Answer A", rank := 1 }] 0 faultAssignment (by decide) (by decide)

/-- Lookup of the accumulated Borda points of an answer id in the
association list built by addRankEntry. -/
def ptsLookup (acc : List (String × Int × List Int)) (k : String) : Option Int :=
  (acc.find? (fun t => decide (t.1 = k))).map (fun t => t.2.1)

/-- Total Borda points of an answer id over a flat list of rank
entries. -/
def sumPts (es : List IAnswerRank) (k : String) : Int :=
  ((es.filter (fun e => decide (e.answerId = k))).map (fun e => e.bordaPoints)).sum

theorem sumPts_nil (k : String) : sumPts [] k = 0 := rfl

theorem sumPts_cons (e : IAnswerRank) (es : List IAnswerRank) (k : String) :
    sumPts (e :: es) k = (if e.answerId = k then e.bordaPoints else 0) + sumPts es k := by
  by_cases he : e.answerId = k
  · simp [sumPts, List.filter_cons, he]
  · simp [sumPts, List.filter_cons, he]

theorem ptsLookup_addRankEntry (acc : List (String × Int × List Int)) (e : IAnswerRank)
    (k : String) :
    (ptsLookup (addRankEntry acc e) k).getD 0 =
      (ptsLookup acc k).getD 0 + (if e.answerId = k then e.bordaPoints else 0) := by
  induction acc with
  | nil =>
    by_cases he : e.answerId = k
    · simp [addRankEntry, ptsLookup, he]
    · simp [addRankEntry, ptsLookup, he]
  | cons x xs ih =>
    obtain ⟨k1, pts1, rks1⟩ := x
    simp only [addRankEntry]
    by_cases hx : k1 = e.answerId
    · rw [if_pos hx]
      by_cases hk : k1 = k
      · have hek : e.answerId = k := hx ▸ hk
        simp [ptsLookup, hk, hek]
      · have hek : ¬ e.answerId = k := fun h => hk (hx.trans h)
        simp [ptsLookup, hk, hek]
    · rw [if_neg hx]
      by_cases hk : k1 = k
      · have hek : ¬ e.answerId = k := fun h => hx (hk.trans h.symm)
        simp [ptsLookup, hk, hek]
      · have hLHS : ptsLookup ((k1, pts1, rks1) :: addRankEntry xs e) k =
            ptsLookup (addRankEntry xs e) k := by
          simp only [ptsLookup]
          rw [List.find?_cons_of_neg (p := fun t : String × Int × List Int =>
            decide (t.1 = k)) (a := (k1, pts1, rks1)) _ (by simp [hk])]
        have hRHS : ptsLookup ((k1, pts1, rks1) :: xs) k = ptsLookup xs k := by
          simp only [ptsLookup]
          rw [List.find?_cons_of_neg (p := fun t : String × Int × List Int =>
            decide (t.1 = k)) (a := (k1, pts1, rks1)) _ (by simp [hk])]
        rw [hLHS, hRHS, ih]

theorem ptsLookup_foldl (es : List IAnswerRank) (acc : List (String × Int × List Int))
    (k : String) :
    (ptsLookup (es.foldl addRankEntry acc) k).getD 0 =
      (ptsLookup acc k).getD 0 + sumPts es k := by
  induction es generalizing acc with
  | nil => simp [sumPts]
  | cons e es ih =>
    rw [List.foldl_cons, ih, ptsLookup_addRankEntry, sumPts_cons]
    omega

theorem keys_addRankEntry (acc : List (String × Int × List Int)) (e : IAnswerRank) :
    (addRankEntry acc e).map (fun t => t.1) =
      (if acc.any (fun t => decide (t.1 = e.answerId)) then acc.map (fun t => t.1)
       else acc.map (fun t => t.1) ++ [e.answerId]) := by
  induction acc with
  | nil => simp [addRankEntry]
  | cons x xs ih =>
    obtain ⟨k1, pts1, rks1⟩ := x
    simp only [addRankEntry]
    by_cases hx : k1 = e.answerId
    · rw [if_pos hx]
      simp [List.any_cons, hx]
    · rw [if_neg hx]
      simp only [List.map_cons, List.any_cons, ih]
      by_cases hany : xs.any (fun t => decide (t.1 = e.answerId))
      · simp [hany, hx]
      · simp [hany, hx]

theorem keysNodup_addRankEntry (acc : List (String × Int × List Int)) (e : IAnswerRank)
    (h : (acc.map (fun t => t.1)).Nodup) :
    ((addRankEntry acc e).map (fun t => t.1)).Nodup := by
  rw [keys_addRankEntry]
  by_cases hany : acc.any (fun t => decide (t.1 = e.answerId))
  · rw [if_pos hany]
    exact h
  · rw [if_neg hany]
    have hnotin : e.answerId ∉ acc.map (fun t => t.1) := by
      intro hin
      rcases List.mem_map.mp hin with ⟨t, ht, hkey⟩
      exact hany (List.any_eq_true.mpr ⟨t, ht, by simp [hkey]⟩)
    simp [List.nodup_append, h, hnotin]

theorem keysNodup_foldl (es : List IAnswerRank) (acc : List (String × Int × List Int))
    (h : (acc.map (fun t => t.1)).Nodup) :
    ((es.foldl addRankEntry acc).map (fun t => t.1)).Nodup := by
  induction es generalizing acc with
  | nil => exact h
  | cons e es ih => exact ih _ (keysNodup_addRankEntry acc e h)

theorem ptsLookup_mem {acc : List (String × Int × List Int)}
    (hnd : (acc.map (fun t => t.1)).Nodup) {t : String × Int × List Int} (ht : t ∈ acc) :
    ptsLookup acc t.1 = some t.2.1 := by
  induction acc with
  | nil => cases ht
  | cons x xs ih =>
    rcases List.mem_cons.mp ht with rfl | hmem
    · simp only [ptsLookup]
      rw [List.find?_cons_of_pos (p := fun q : String × Int × List Int =>
        decide (q.1 = t.1)) (a := t) _ (by simp)]
      rfl
    · have hx : x.1 ≠ t.1 := by
        intro hcontra
        have h1 := (List.nodup_cons.mp hnd).1
        have h2 : t.1 ∈ xs.map (fun q => q.1) := List.mem_map_of_mem (fun q => q.1) hmem
        rw [← hcontra] at h2
        exact h1 h2
      simp only [ptsLookup]
      rw [List.find?_cons_of_neg (p := fun q : String × Int × List Int =>
        decide (q.1 = t.1)) (a := x) _ (by simp [hx])]
      exact ih (List.nodup_cons.mp hnd).2 hmem

/-- Blind assignment with three mappings labelled Answer A, B, C. -/
def bordaAssignment3 : IBlindReviewAssignment :=
  { _id := "blind_3", reviewerId := "reviewer_9", questionId := "question_1",
    answerMappings :=
      [{ anonymousId := "Answer A", realAnswerId := "X", authorId := "author_1" },
       { anonymousId := "Answer B", realAnswerId := "Y", authorId := "author_2" },
       { anonymousId := "Answer C", realAnswerId := "Z", authorId := "author_3" }],
    status := "assigned", createdAt := 0, updatedAt := 0 }

/-- Blind state holding only bordaAssignment3. -/
def bordaState3 : BlindState :=
  { blindAssignments := [bordaAssignment3], answerRankings := [] }

/-- Completed ranking of reviewer_1: X first, Y second. -/
def rankingX1 : IAnswerRanking :=
  { _id := "ranking_1", reviewerId := "reviewer_1", questionId := "question_1",
    rankings :=
      [{ answerId := "X", anonymousId := "Answer A", rank := 1, bordaPoints := 1 },
       { answerId := "Y", anonymousId := "Answer B", rank := 2, bordaPoints := 0 }],
    status := "completed", createdAt := 0, updatedAt := 0 }

/-- Completed ranking of reviewer_2: X first, Y second. -/
def rankingX2 : IAnswerRanking :=
  { _id := "ranking_2", reviewerId := "reviewer_2", questionId := "question_1",
    rankings :=
      [{ answerId := "X", anonymousId := "Answer B", rank := 1, bordaPoints := 1 },
       { answerId := "Y", anonymousId := "Answer A", rank := 2, bordaPoints := 0 }],
    status := "completed", createdAt := 0, updatedAt := 0 }

/-- The two completed rankings of question_1, both putting X first. -/
def bordaRankings : List IAnswerRanking := [rankingX1, rankingX2]

/-- Modelled from the spec: the answer store behind the getAnswerById
placeholder, as a total lookup returning an answer entity per id. -/
def answerStore (i : String) : Option IAnswer :=
  some { _id := i, questionId := "question_1", authorId := "author_0", answer := "" }

/-- Claim C8: submitBlindRanking awards an answer placed at rank r among
n ranked answers bordaPoints n - r (ranks 1, 2, 3 of three answers give
2, 1, 0); calculateBordaWinner sums Borda points per answerId across all
completed rankings of the question, its first row has the maximal total,
and the winner is the store lookup of that first answerId; two reviewers
who both rank X first make X the top row and the winner. -/
theorem C8_borda_count :
    (∀ (s : BlindState) (reviewerId questionId : String) (inputs : List RankingInput)
        (now : Int) (ok : Bool) (s2 : BlindState),
      PeerReviewService.submitBlindRanking s reviewerId questionId inputs now =
        some (ok, s2) → ok = true →
      ∃ rec, s2.answerRankings = s.answerRankings ++ [rec] ∧
        ∀ e ∈ rec.rankings, e.bordaPoints = (inputs.length : Int) - e.rank) ∧
    (∀ (getAnswerById : String → Option IAnswer) (state : List IAnswerRanking)
        (questionId : String),
      (∀ r ∈ state, r.status = "completed") →
      (∀ e ∈ (PeerReviewService.calculateBordaWinner getAnswerById state questionId).rankings,
        e.totalBordaPoints = bordaPointsFor state questionId e.answerId) ∧
      (∀ hd tl,
        (PeerReviewService.calculateBordaWinner getAnswerById state questionId).rankings =
          hd :: tl →
        (∀ e ∈ hd :: tl, e.totalBordaPoints ≤ hd.totalBordaPoints) ∧
        (PeerReviewService.calculateBordaWinner getAnswerById state questionId).winner =
          getAnswerById hd.answerId)) ∧
    ((PeerReviewService.submitBlindRanking bordaState3 "reviewer_9" "question_1"
        [{ anonymousId := "Answer A", rank := 1 }, { anonymousId := "Answer B", rank := 2 },
         { anonymousId := "Answer C", rank := 3 }] 0).map
      (fun r => r.2.answerRankings.map (fun rec => rec.rankings.map (fun e => e.bordaPoints))) =
      some [[2, 1, 0]]) ∧
    ((PeerReviewService.calculateBordaWinner answerStore bordaRankings "question_1").rankings.map
        (fun e => (e.answerId, e.totalBordaPoints)) = [("X", 2), ("Y", 0)] ∧
      (PeerReviewService.calculateBordaWinner answerStore bordaRankings "question_1").winner =
        answerStore "X") := by
  refine ⟨?_, ?_, by decide, by decide⟩
  · intro s reviewerId questionId inputs now ok s2 hrun hok
    subst hok
    simp only [PeerReviewService.submitBlindRanking] at hrun
    cases hget : PeerReviewService.getBlindAssignment s.blindAssignments reviewerId questionId with
    | none =>
      simp only [hget] at hrun
      simp at hrun
    | some a =>
      simp only [hget] at hrun
      split at hrun
      · exact Option.noConfusion hrun
      · rename_i ranks heq
        injection hrun with hpair
        have hs2 : s2 = _ := ((Prod.mk.injEq _ _ _ _).mp hpair).2.symm
        subst hs2
        refine ⟨_, rfl, ?_⟩
        intro e he
        rcases mapM_option_mem heq e he with ⟨x, hxmem, hfx⟩
        cases hfind : a.answerMappings.find?
            (fun m => decide (m.anonymousId = x.anonymousId)) with
        | none => rw [hfind] at hfx; cases hfx
        | some m =>
          rw [hfind] at hfx
          simp only [Option.map_some, Option.map_some', Option.some.injEq] at hfx
          subst hfx
          rfl
  · intro getAnswerById state questionId hc
    by_cases hemp : (state.filter (fun r => decide (r.questionId = questionId))).length = 0
    · simp only [PeerReviewService.calculateBordaWinner, if_pos hemp]
      constructor
      · intro e he
        cases he
      · intro hd tl ht
        cases ht
    · simp only [PeerReviewService.calculateBordaWinner, if_neg hemp]
      have hflat : (state.filter (fun r => decide (r.questionId = questionId))).foldl
          (fun acc r => r.rankings.foldl addRankEntry acc) [] =
          (((state.filter (fun r => decide (r.questionId = questionId))).map
            (fun r => r.rankings)).flatten).foldl addRankEntry [] := by
        rw [List.foldl_flatten, List.foldl_map]
      have hnd := keysNodup_foldl
        (((state.filter (fun r => decide (r.questionId = questionId))).map
          (fun r => r.rankings)).flatten) [] (by simp)
      have hfcong : state.filter (fun r =>
          decide (r.questionId = questionId) && decide (r.status = "completed")) =
          state.filter (fun r => decide (r.questionId = questionId)) := by
        apply List.filter_congr
        intro r hr
        simp [hc r hr]
      haveI : IsTotal BordaEntry
          (fun a b => b.totalBordaPoints ≤ a.totalBordaPoints) :=
        ⟨fun a b => Int.le_total b.totalBordaPoints a.totalBordaPoints⟩
      haveI : IsTrans BordaEntry
          (fun a b => b.totalBordaPoints ≤ a.totalBordaPoints) :=
        ⟨fun _ _ _ hab hbc => le_trans hbc hab⟩
      constructor
      · intro e he
        have he2 := (List.mem_insertionSort _).mp he
        rcases List.mem_map.mp he2 with ⟨t, ht, rfl⟩
        rw [hflat] at ht
        have hlook := ptsLookup_mem hnd ht
        have h1 : (ptsLookup
            ((((state.filter (fun r => decide (r.questionId = questionId))).map
              (fun r => r.rankings)).flatten).foldl addRankEntry []) t.1).getD 0 = t.2.1 := by
          rw [hlook]
          rfl
        have h2 := ptsLookup_foldl
          (((state.filter (fun r => decide (r.questionId = questionId))).map
            (fun r => r.rankings)).flatten) [] t.1
        have h3 : t.2.1 = sumPts
            (((state.filter (fun r => decide (r.questionId = questionId))).map
              (fun r => r.rankings)).flatten) t.1 := by
          rw [← h1, h2]
          simp [ptsLookup]
        show t.2.1 = bordaPointsFor state questionId t.1
        rw [h3]
        simp only [bordaPointsFor, sumPts, hfcong]
      · intro hd tl ht
        have hsorted := List.sorted_insertionSort
          (r := fun a b : BordaEntry => b.totalBordaPoints ≤ a.totalBordaPoints)
          (((state.filter (fun r => decide (r.questionId = questionId))).foldl
            (fun acc r => r.rankings.foldl addRankEntry acc) []).map
            (fun t => ({ answerId := t.1
                         totalBordaPoints := t.2.1
                         averageRank :=
                           (t.2.2.map (fun r => (r : Rat))).sum / (t.2.2.length : Rat) } :
              BordaEntry)))
        rw [ht] at hsorted
        constructor
        · intro e he
          rcases List.mem_cons.mp he with rfl | hmem
          · exact le_refl _
          · exact List.rel_of_sorted_cons hsorted e hmem
        · rw [ht]

/-- Result state of the concrete three-answer blind ranking run. -/
def resultState3 : BlindState :=
  { blindAssignments := [{ bordaAssignment3 with status := "completed", updatedAt := 0 }],
    answerRankings :=
      [{ _id := "ranking_0", reviewerId := "reviewer_9", questionId := "question_1",
         rankings :=
           [{ answerId := "X", anonymousId := "Answer A", rank := 1, bordaPoints := 2 },
            { answerId := "Y", anonymousId := "Answer B", rank := 2, bordaPoints := 1 },
            { answerId := "Z", anonymousId := "Answer C", rank := 3, bordaPoints := 0 }],
         status := "completed", createdAt := 0, updatedAt := 0 }] }

/-- Witness for C8: the concrete three-answer run appends one ranking
record whose points are the number of ranked answers minus the rank. -/
theorem C8_borda_count_witness :
    ∃ rec, resultState3.answerRankings = bordaState3.answerRankings ++ [rec] ∧
      ∀ e ∈ rec.rankings,
        e.bordaPoints =
          (([{ anonymousId := "Answer A", rank := 1 }, { anonymousId := "Answer B", rank := 2 },
             { anonymousId := "Answer C", rank := 3 }] : List RankingInput).length : Int) -
            e.rank :=
  C8_borda_count.1 bordaState3 "reviewer_9" "question_1"
    [{ anonymousId := "Answer A", rank := 1 }, { anonymousId := "Answer B", rank := 2 },
     { anonymousId := "Answer C", rank := 3 }] 0 true resultState3 (by decide) rfl
